import Mathlib

/-!
Verification of the CoNLL-U dataset-assembly pipeline (conllu_datasets.py).

The development embeds the label-encoding and dataset-assembly logic of
ConlluMapDataset / ConlluIterDataset as executable Lean definitions and
proves (or refutes) the specified properties about them.

Conventions of the embedding:
* Python exceptions become the result type Res: a value or an error string.
* sklearn.preprocessing.LabelEncoder.fit stores numpy.unique of its input,
  i.e. the sorted distinct values (sorted lexicographically by code point);
  encoder.transform maps a label to its index in that sorted array and
  errors on labels absent from it.  This semantics is embedded below as
  fitEncoder / encode / decode.
* joblib.dump / joblib.load against a directory become an explicit Store
  value holding the set of existing directories and the saved blobs.
-/

/-- Result of a call that can raise: either a value or an error name. -/
inductive Res (α : Type) where
  | ok : α → Res α
  | err : String → Res α
  deriving DecidableEq, Repr

/-- Lexicographic comparison of characters by code point, as numpy compares
the elements of a string array. -/
def charLtB (a b : Char) : Bool := decide (a.toNat < b.toNat)

/-- Lexicographic comparison of character lists by code point. -/
def clLt : List Char → List Char → Bool
  | [], [] => false
  | [], _ :: _ => true
  | _ :: _, [] => false
  | x :: xs, y :: ys => if x = y then clLt xs ys else charLtB x y

/-- Lexicographic comparison of strings by code point, the order numpy.unique
sorts by for string arrays. -/
def strLtB (a b : String) : Bool := clLt a.data b.data

/-- Modelled from the spec: the edit_scripts module imported by
conllu_datasets.py is not under src.  Longest common prefix length of two
character lists, used to locate the unchanged left anchor of an edit script. -/
def lcp : List Char → List Char → Nat
  | [], _ => 0
  | _ :: _, [] => 0
  | a :: as, b :: bs => if a = b then lcp as bs + 1 else 0

/-- Modelled from the spec: an edit script records the length of the unchanged
source prefix and suffix, the replacement for the differing middle segment,
and whether it is the Reverse variant (computed on reversed strings). -/
structure EditScript where
  prefixLen : Nat
  suffixLen : Nat
  replacement : List Char
  isRev : Bool
  deriving DecidableEq, Repr

/-- Modelled from the spec: the Forward computation locates the longest common
prefix length p and, independently, the longest common suffix length, shrunk
so that together they never exceed the shorter string; the middle of the
target is recorded as the replacement. -/
def computeFwd (s t : List Char) : EditScript :=
  let p := lcp s t
  let q := min (lcp s.reverse t.reverse) (min s.length t.length - p)
  ⟨p, q, (t.take (t.length - q)).drop p, false⟩

/-- Modelled from the spec: the Reverse variant performs the identical
computation on the reversed strings and records the direction. -/
def computeScript (rev : Bool) (s t : List Char) : EditScript :=
  if rev then { computeFwd s.reverse t.reverse with isRev := true }
  else computeFwd s t

/-- Modelled from the spec: Forward application keeps the recorded prefix of
the source, inserts the replacement, and keeps the recorded suffix; the split
points are clamped by List.take / List.drop on short sources. -/
def applyFwd (e : EditScript) (s : List Char) : List Char :=
  s.take e.prefixLen ++ e.replacement ++ s.drop (s.length - e.suffixLen)

/-- Modelled from the spec: Reverse application reverses the source, applies
forward, and reverses the result back. -/
def applyScript (e : EditScript) (s : List Char) : List Char :=
  if e.isRev then (applyFwd e s.reverse).reverse else applyFwd e s

/-- Edit-script computation on strings (the codec input is already
case-normalized by the caller, as in the Python code). -/
def computeStr (rev : Bool) (s t : String) : EditScript :=
  computeScript rev s.data t.data

/-- Edit-script application on strings. -/
def applyStr (e : EditScript) (s : String) : String :=
  String.mk (applyScript e s.data)

/-- Modelled from the spec: one canonical, stable string form per script,
used as a classification label by the dataset code (str(script) in Python). -/
def scriptToString (e : EditScript) : String :=
  (if e.isRev then "R|" else "F|") ++ toString e.prefixLen ++ "|" ++
    toString e.suffixLen ++ "|" ++ String.mk e.replacement

/-- ASCII lower-casing of a string, the form.lower() / lemma.lower() step of
the Python code. -/
def lowerStr (s : String) : String := String.mk (s.data.map Char.toLower)

/-- The lemma-rule label derived for one token: the serialized edit script
from the lowered form to the lowered lemma (str(self.e_script(...)) in
_get_all_classes and _get_data). -/
def lemmaRuleStr (rev : Bool) (form lem : String) : String :=
  scriptToString (computeStr rev (lowerStr form) (lowerStr lem))

/-- ConlluMapDataset.PAD_TAG. -/
def PAD_TAG : String := "[PAD]"

/-- ConlluMapDataset.UPOS_CLASSES, the fixed closed set of known UPOS tags. -/
def UPOS_CLASSES : List String :=
  ["ADJ", "ADP", "ADV", "AUX", "CCONJ", "DET", "INTJ", "NOUN", "NUM", "PART",
   "PRON", "PROPN", "PUNCT", "SCONJ", "SYM", "VERB", "X", "_"]

/-- Insert a string into a sorted duplicate-free list, keeping it sorted and
duplicate-free. -/
def insUnique (s : String) : List String → List String
  | [] => [s]
  | x :: xs =>
    if s = x then x :: xs
    else if strLtB s x then s :: x :: xs
    else x :: insUnique s xs

/-- numpy.unique on a list of strings: the sorted distinct values. -/
def npUnique (l : List String) : List String := l.foldr insUnique []

/-- LabelEncoder().fit(classes + [PAD_TAG]) as called by
ConlluMapDataset._fit_label_encoders: the stored classes_ array is
numpy.unique of the input, i.e. the sorted distinct labels. -/
def fitEncoder (classes : List String) : List String :=
  npUnique (classes ++ [PAD_TAG])

/-- LabelEncoder.transform on a single label: its index in the fitted
classes_ array, or an error for a label unseen at fit time (sklearn raises
ValueError; the spec taxonomy names this condition UnknownLabelError). -/
def encode (enc : List String) (label : String) : Res Nat :=
  if label ∈ enc then .ok (enc.indexOf label) else .err "UnknownLabelError"

/-- LabelEncoder.inverse_transform on a single code: the label stored at that
index, or an error for an out-of-range code. -/
def decode (enc : List String) (code : Nat) : Res String :=
  match enc.get? code with
  | some s => .ok s
  | none => .err "OutOfRangeError"

/-- One corpus token with the fields the dataset code reads. -/
structure Token where
  form : String
  lemma_ : String
  upos : String
  feats : String
  deriving DecidableEq, Repr

/-- One sentence of the corpus: its metadata text and its token list. -/
structure Sent where
  text : String
  tokens : List Token
  deriving DecidableEq, Repr

/-- One encoded record of the data set: (sentence, uposes, lemma_rules,
ufeats) as built by _get_data and by ConlluIterDataset.__iter__. -/
structure Record where
  text : String
  uposCodes : List Nat
  lemmaCodes : List Nat
  featsCodes : List Nat
  deriving DecidableEq, Repr

/-- LabelEncoder.transform on a list of labels: all indices, or an error as
soon as any label is unseen. -/
def transform (enc : List String) : List String → Res (List Nat)
  | [] => .ok []
  | s :: rest =>
    match encode enc s, transform enc rest with
    | .ok c, .ok cs => .ok (c :: cs)
    | .err e, _ => .err e
    | _, .err e => .err e

/-- The per-sentence encoding step shared verbatim by
ConlluMapDataset._get_data and ConlluIterDataset.__iter__: collect the upos,
lemma-rule and feats label of every token, then transform each list with its
encoder. -/
def encodeSentence (rev : Bool) (u f l : List String) (s : Sent) : Res Record :=
  let uposes := s.tokens.map (fun t => t.upos)
  let lemmaRules := s.tokens.map (fun t => lemmaRuleStr rev t.form t.lemma_)
  let ufeats := s.tokens.map (fun t => t.feats)
  match transform u uposes, transform l lemmaRules, transform f ufeats with
  | .ok uc, .ok lc, .ok fc => .ok ⟨s.text, uc, lc, fc⟩
  | .err e, _, _ => .err e
  | _, .err e, _ => .err e
  | _, _, .err e => .err e

/-- ConlluMapDataset._get_data: encode every sentence in order and buffer the
records; the first failing sentence aborts with its error. -/
def getData (rev : Bool) (u f l : List String) : List Sent → Res (List Record)
  | [] => .ok []
  | s :: rest =>
    match encodeSentence rev u f l s, getData rev u f l rest with
    | .ok r, .ok rs => .ok (r :: rs)
    | .err e, _ => .err e
    | _, .err e => .err e

/-- The records yielded by the generator of ConlluIterDataset.__iter__: one
record per sentence, lazily, stopping at the first encoding failure. -/
def iterYields (rev : Bool) (u f l : List String) : List Sent → List Record
  | [] => []
  | s :: rest =>
    match encodeSentence rev u f l s with
    | .ok r => r :: iterYields rev u f l rest
    | .err _ => []

/-- The persistence collaborator: the directories that exist and the blobs
saved by joblib.dump, keyed by (namespace, file name). -/
structure Store where
  dirs : List String
  blobs : List (String × String × List String)
  deriving DecidableEq, Repr

/-- A store in which nothing has ever been saved. -/
def emptyStore : Store := ⟨[], []⟩

/-- joblib.load of one blob: the most recently dumped value for the key, if
any. -/
def storeLookup (st : Store) (ns nm : String) : Option (List String) :=
  match st.blobs.find? (fun b => b.1 == ns && b.2.1 == nm) with
  | some b => some b.2.2
  | none => none

/-- The persistence step of _fit_label_encoders: create the namespace
directory if absent, then dump the three encoders under it. -/
def saveEncoders (st : Store) (ns : String) (u f l : List String) : Store :=
  { dirs := if ns ∈ st.dirs then st.dirs else ns :: st.dirs,
    blobs := (ns, "upos_encoder", u) :: (ns, "ufeats_encoder", f) ::
      (ns, "lemma_encoder", l) :: st.blobs }

/-- The encoder attributes of a constructed ConlluIterDataset: present only
when the namespace directory existed at construction time. -/
structure IterState where
  encoders : Option (List String × List String × List String)
  deriving DecidableEq, Repr

/-- ConlluIterDataset.__init__ restricted to its encoder-loading step: if the
namespace directory exists the three blobs are loaded (joblib.load raising -
NotFoundError in the spec taxonomy - when one is missing); if the directory
does not exist the loads are silently skipped. -/
def iterInit (st : Store) (ns : String) : Res IterState :=
  if ns ∈ st.dirs then
    match storeLookup st ns "upos_encoder", storeLookup st ns "ufeats_encoder",
        storeLookup st ns "lemma_encoder" with
    | some u, some f, some l => .ok ⟨some (u, f, l)⟩
    | _, _, _ => .err "NotFoundError"
  else .ok ⟨none⟩

/-- The append-if-absent step of _get_all_classes. -/
def addNew (acc : List String) (s : String) : List String :=
  if s ∈ acc then acc else acc ++ [s]

/-- ConlluMapDataset._get_all_classes("feats"): the distinct feats strings in
first-encounter order. -/
def getAllClassesFeats (c : List Sent) : List String :=
  c.foldl (fun acc sent => sent.tokens.foldl (fun a t => addNew a t.feats) acc) []

/-- ConlluMapDataset._get_all_classes("lemma"): the distinct serialized
lemma-rule strings in first-encounter order. -/
def getAllClassesLemma (rev : Bool) (c : List Sent) : List String :=
  c.foldl
    (fun acc sent =>
      sent.tokens.foldl (fun a t => addNew a (lemmaRuleStr rev t.form t.lemma_)) acc)
    []

/-- The state of a constructed ConlluMapDataset: its buffered data_set and
its fitted encoders (absent in prediction mode). -/
structure MapState where
  dataSet : List Record
  encoders : Option (List String × List String × List String)
  deriving DecidableEq, Repr

/-- ConlluMapDataset.__init__: with a falsy conllu_file argument (modelled as
none) the dataset is empty and nothing is fitted or saved; otherwise the
class lists are discovered, the three encoders fitted and persisted, and the
whole corpus encoded into the buffered data_set. -/
def mapInit (corpus : Option (List Sent)) (rev : Bool) (ns : String)
    (st : Store) : Res (MapState × Store) :=
  match corpus with
  | none => .ok (⟨[], none⟩, st)
  | some c =>
    let u := fitEncoder UPOS_CLASSES
    let f := fitEncoder (getAllClassesFeats c)
    let l := fitEncoder (getAllClassesLemma rev c)
    let st' := saveEncoders st ns u f l
    match getData rev u f l c with
    | .ok data => .ok (⟨data, some (u, f, l)⟩, st')
    | .err e => .err e

/-- The bounds-checked access step of Python list subscription: a normalized
index outside [0, len) raises IndexError. -/
def pyGet {α : Type} (l : List α) (j : Int) : Res α :=
  if 0 ≤ j ∧ j < l.length then
    match l.get? j.toNat with
    | some a => .ok a
    | none => .err "IndexError"
  else .err "IndexError"

/-- Python list subscription with index normalization: a negative index has
the list length added to it first. -/
def pyGetItem {α : Type} (l : List α) (i : Int) : Res α :=
  pyGet l (if i < 0 then i + l.length else i)

/-- The upos labels observed in a corpus, in order. -/
def observedUpos : List Sent → List String
  | [] => []
  | s :: rest => s.tokens.map (fun t => t.upos) ++ observedUpos rest

/-- A one-token demonstration sentence whose lemma rule is the identity
script. -/
def demoToken : Token := ⟨"run", "run", "VERB", "_"⟩

/-- The demonstration corpus sentence. -/
def demoSent : Sent := ⟨"run", [demoToken]⟩

/-- The upos encoder fitted by the dataset code. -/
def demoU : List String := fitEncoder UPOS_CLASSES

/-- The feats encoder fitted from the demonstration corpus. -/
def demoF : List String := fitEncoder ["_"]

/-- The lemma-rule encoder fitted from the demonstration corpus. -/
def demoL : List String := fitEncoder ["F|3|0|"]

/-- The encoded record of the demonstration sentence. -/
def demoRecord : Record := ⟨"run", [15], [0], [1]⟩

/-- The map-dataset state built from the demonstration corpus. -/
def demoMapState : MapState := ⟨[demoRecord], some (demoU, demoF, demoL)⟩

/-- The store after the demonstration fitting pass persisted its encoders. -/
def demoStore : Store := saveEncoders emptyStore "UDTube" demoU demoF demoL

/-- A store whose namespace directory exists but holds no saved encoders. -/
def storeNS : Store := ⟨["NS"], []⟩

/-- A corpus containing a upos label outside the closed UPOS_CLASSES set. -/
def fooCorpus : List Sent := [⟨"foo", [⟨"foo", "foo", "FOO", "_"⟩]⟩]

/-! ### Order properties of the embedded numpy string comparison -/

lemma char_toNat_inj {a b : Char} (h : a.toNat = b.toNat) : a = b :=
  Char.ext_iff.mpr (UInt32.ext h)

lemma clLt_tri : ∀ a b : List Char, clLt a b = true ∨ a = b ∨ clLt b a = true
  | [], [] => Or.inr (Or.inl rfl)
  | [], _ :: _ => Or.inl rfl
  | _ :: _, [] => Or.inr (Or.inr rfl)
  | x :: xs, y :: ys => by
    by_cases hxy : x = y
    · subst hxy
      rcases clLt_tri xs ys with h | h | h
      · exact Or.inl (by simp [clLt, h])
      · exact Or.inr (Or.inl (by rw [h]))
      · exact Or.inr (Or.inr (by simp [clLt, h]))
    · rcases Nat.lt_trichotomy x.toNat y.toNat with h | h | h
      · exact Or.inl (by simp [clLt, hxy, charLtB, h])
      · exact absurd (char_toNat_inj h) hxy
      · have hyx : y ≠ x := fun e => hxy e.symm
        exact Or.inr (Or.inr (by simp [clLt, hyx, charLtB, h]))

lemma clLt_trans : ∀ a b c : List Char,
    clLt a b = true → clLt b c = true → clLt a c = true
  | [], [], _, h1, _ => by simp [clLt] at h1
  | [], _ :: _, [], _, h2 => by simp [clLt] at h2
  | [], _ :: _, _ :: _, _, _ => rfl
  | _ :: _, [], _, h1, _ => by simp [clLt] at h1
  | _ :: _, _ :: _, [], _, h2 => by simp [clLt] at h2
  | x :: xs, y :: ys, z :: zs, h1, h2 => by
    by_cases hxy : x = y <;> by_cases hyz : y = z
    · subst hxy; subst hyz
      simp only [clLt, if_pos rfl] at h1 h2 ⊢
      exact clLt_trans xs ys zs h1 h2
    · subst hxy
      simp only [clLt, if_pos rfl, if_neg hyz] at h2
      simp only [clLt, if_neg hyz]
      exact h2
    · subst hyz
      simp only [clLt, if_neg hxy] at h1
      simp only [clLt, if_neg hxy]
      exact h1
    · simp only [clLt, if_neg hxy] at h1
      simp only [clLt, if_neg hyz] at h2
      simp only [charLtB, decide_eq_true_eq] at h1 h2
      have hlt : x.toNat < z.toNat := Nat.lt_trans h1 h2
      have hxz : x ≠ z := fun e => absurd hlt (by rw [e]; exact Nat.lt_irrefl _)
      simp only [clLt, if_neg hxz, charLtB, decide_eq_true_eq]
      exact hlt

lemma str_data_inj {a b : String} (h : a.data = b.data) : a = b :=
  congrArg String.mk h

lemma strLtB_tri (a b : String) : strLtB a b = true ∨ a = b ∨ strLtB b a = true := by
  rcases clLt_tri a.data b.data with h | h | h
  · exact Or.inl h
  · exact Or.inr (Or.inl (str_data_inj h))
  · exact Or.inr (Or.inr h)

lemma strLtB_trans {a b c : String} (h1 : strLtB a b = true)
    (h2 : strLtB b c = true) : strLtB a c = true :=
  clLt_trans a.data b.data c.data h1 h2

/-! ### The fitted vocabulary: sorted distinct classes -/

lemma mem_insUnique (s a : String) : ∀ l : List String,
    a ∈ insUnique s l ↔ a = s ∨ a ∈ l
  | [] => by simp [insUnique]
  | x :: xs => by
    by_cases h1 : s = x
    · subst h1
      have he : insUnique s (s :: xs) = s :: xs := by simp [insUnique]
      rw [he]
      constructor
      · exact Or.inr
      · intro hmem
        rcases hmem with h | h
        · rw [h]
          exact List.mem_cons_self _ _
        · exact h
    · by_cases h2 : strLtB s x
      · simp only [insUnique, if_neg h1, if_pos h2, List.mem_cons]
      · simp only [insUnique, if_neg h1, if_neg h2, List.mem_cons,
          mem_insUnique s a xs]
        tauto

lemma pairwise_insUnique (s : String) : ∀ l : List String,
    l.Pairwise (fun a b => strLtB a b = true) →
    (insUnique s l).Pairwise (fun a b => strLtB a b = true)
  | [], _ => by simp [insUnique]
  | x :: xs, h => by
    rcases List.pairwise_cons.mp h with ⟨hx, hxs⟩
    by_cases h1 : s = x
    · simpa [insUnique, h1] using h
    · by_cases h2 : strLtB s x
      · simp only [insUnique, if_neg h1, if_pos h2]
        refine List.pairwise_cons.mpr ⟨?_, h⟩
        intro b hb
        rcases List.mem_cons.mp hb with rfl | hb'
        · exact h2
        · exact strLtB_trans h2 (hx b hb')
      · simp only [insUnique, if_neg h1, if_neg h2]
        refine List.pairwise_cons.mpr ⟨?_, pairwise_insUnique s xs hxs⟩
        intro b hb
        rcases (mem_insUnique s b xs).mp hb with hb1 | hb'
        · rw [hb1]
          rcases strLtB_tri s x with h3 | h3 | h3
          · exact absurd h3 h2
          · exact absurd h3 h1
          · exact h3
        · exact hx b hb'

lemma pairwise_npUnique : ∀ l : List String,
    (npUnique l).Pairwise (fun a b => strLtB a b = true)
  | [] => List.Pairwise.nil
  | x :: xs => pairwise_insUnique x (npUnique xs) (pairwise_npUnique xs)

lemma mem_npUnique (a : String) : ∀ l : List String, a ∈ npUnique l ↔ a ∈ l
  | [] => by simp [npUnique]
  | x :: xs => by
    show a ∈ insUnique x (npUnique xs) ↔ _
    rw [mem_insUnique]
    simp [mem_npUnique a xs, List.mem_cons]

lemma mem_fitEncoder (a : String) (classes : List String) :
    a ∈ fitEncoder classes ↔ a ∈ classes ∨ a = PAD_TAG := by
  unfold fitEncoder
  rw [mem_npUnique]
  simp

/-- C1: the claim asserts that the pad label gets the highest code n (the
count of fitted classes) in every fitted vocabulary, so that decode(n) is
"[PAD]" and no fitted class encodes to n.  The code comment in
_fit_label_encoders states the same intent, but LabelEncoder sorts its
classes: for the UPOS vocabulary (18 fitted classes + pad, 19 codes) the
class "_" sorts after "[PAD]", so "_" gets the highest code 18 and "[PAD]"
gets 17 - decode(18) is "_", not "[PAD]". -/
theorem upos_pad_not_highest :
    (fitEncoder UPOS_CLASSES).length = 19 ∧
    encode (fitEncoder UPOS_CLASSES) "_" = Res.ok 18 ∧
    decode (fitEncoder UPOS_CLASSES) 18 = Res.ok "_" ∧
    decode (fitEncoder UPOS_CLASSES) 18 ≠ Res.ok PAD_TAG ∧
    encode (fitEncoder UPOS_CLASSES) PAD_TAG = Res.ok 17 := by decide

/-- C2 counterexample: fitting from the observation order ["b", "a"] does not
assign codes in first-encounter order ("b" to 0, "a" to 1, pad appended at
2); the encoder sorts, giving "b" code 2 and the pad label code 0. -/
theorem fit_not_insertion_order :
    encode (fitEncoder ["b", "a"]) "b" = Res.ok 2 ∧
    encode (fitEncoder ["b", "a"]) "b" ≠ Res.ok 0 ∧
    encode (fitEncoder ["b", "a"]) PAD_TAG = Res.ok 0 := by decide

/-- C2 (amended): fitting a vocabulary assigns codes 0..n to the distinct
observed classes together with the pad label in lexicographically sorted
order (numpy.unique order), not in first-encounter order: the fitted class
array is sorted and contains exactly the observed classes and the pad label,
and encode maps each label to its rank in that array. -/
theorem fitEncoder_sorted_sets (classes : List String) :
    (fitEncoder classes).Pairwise (fun a b => strLtB a b = true) ∧
    ∀ a : String, (a ∈ fitEncoder classes ↔ (a ∈ classes ∨ a = PAD_TAG)) :=
  ⟨pairwise_npUnique _, fun a => mem_fitEncoder a classes⟩

/-- C6 counterexample: a corpus containing the UPOS label "FOO" (outside the
closed set): the label is observed but not encodable, and the whole
materializing construction fails on such a corpus. -/
theorem upos_vocab_misses_corpus_label :
    "FOO" ∈ observedUpos fooCorpus ∧
    encode (fitEncoder UPOS_CLASSES) "FOO" = Res.err "UnknownLabelError" ∧
    mapInit (some fooCorpus) false "UDTube" emptyStore =
      Res.err "UnknownLabelError" := by decide

/-- C6 (amended): the fitted UPOS vocabulary is exactly the fixed closed set
plus the pad label, independent of the corpus: observed corpus UPOS labels
are not collected, so a label is encodable after fitting exactly when it
belongs to the closed set (or is the pad label). -/
theorem upos_vocab_closed_set (label : String) :
    (∃ k, encode (fitEncoder UPOS_CLASSES) label = Res.ok k) ↔
      (label ∈ UPOS_CLASSES ∨ label = PAD_TAG) := by
  rw [← mem_fitEncoder]
  constructor
  · rintro ⟨k, hk⟩
    by_contra hmem
    simp [encode, hmem] at hk
  · intro hmem
    exact ⟨(fitEncoder UPOS_CLASSES).indexOf label, by simp [encode, hmem]⟩

/-- C8: encoding a label that was not among the strings present at fit time
(the observed classes plus the pad label) surfaces UnknownLabelError. -/
theorem encode_unknown_label (classes : List String) (label : String)
    (h : label ∉ classes ++ [PAD_TAG]) :
    encode (fitEncoder classes) label = Res.err "UnknownLabelError" := by
  have hm : label ∉ fitEncoder classes := by
    intro hmem
    exact h (by simpa using (mem_fitEncoder label classes).mp hmem)
  simp [encode, hm]

/-- C8 witness: the label "xyz" was absent when fitting from ["NOUN"], and
encoding it yields UnknownLabelError. -/
theorem encode_unknown_label_witness :
    encode (fitEncoder ["NOUN"]) "xyz" = Res.err "UnknownLabelError" :=
  encode_unknown_label ["NOUN"] "xyz" (by decide)

/-! ### Round-trip of the edit-script codec -/

lemma lcp_le_left : ∀ a b : List Char, lcp a b ≤ a.length := by
  intro a
  induction a with
  | nil => intro b; simp [lcp]
  | cons x xs ih =>
    intro b
    cases b with
    | nil => simp [lcp]
    | cons y ys =>
      by_cases h : x = y
      · simp only [lcp, if_pos h, List.length_cons]
        exact Nat.succ_le_succ (ih ys)
      · simp [lcp, h]

lemma lcp_le_right : ∀ a b : List Char, lcp a b ≤ b.length := by
  intro a
  induction a with
  | nil => intro b; simp [lcp]
  | cons x xs ih =>
    intro b
    cases b with
    | nil => simp [lcp]
    | cons y ys =>
      by_cases h : x = y
      · simp only [lcp, if_pos h, List.length_cons]
        exact Nat.succ_le_succ (ih ys)
      · simp [lcp, h]

lemma take_lcp_eq : ∀ (a b : List Char) (k : Nat), k ≤ lcp a b →
    a.take k = b.take k := by
  intro a
  induction a with
  | nil =>
    intro b k h
    simp only [lcp] at h
    simp [Nat.le_zero.mp h]
  | cons x xs ih =>
    intro b k h
    cases b with
    | nil =>
      simp only [lcp] at h
      simp [Nat.le_zero.mp h]
    | cons y ys =>
      by_cases hxy : x = y
      · subst hxy
        cases k with
        | zero => simp
        | succ k =>
          simp only [lcp, if_pos rfl] at h
          simp only [List.take_succ_cons]
          rw [ih ys k (Nat.le_of_succ_le_succ h)]
      · simp only [lcp, if_neg hxy] at h
        simp [Nat.le_zero.mp h]

lemma applyFwd_computeFwd (s t : List Char) : applyFwd (computeFwd s t) s = t := by
  have hp1 : lcp s t ≤ s.length := lcp_le_left s t
  have hp2 : lcp s t ≤ t.length := lcp_le_right s t
  dsimp only [computeFwd, applyFwd]
  set p := lcp s t with hpdef
  set m := min s.length t.length with hmdef
  set q := min (lcp s.reverse t.reverse) (m - p) with hqdef
  have hq1 : q ≤ lcp s.reverse t.reverse := Nat.min_le_left _ _
  have hq2 : q ≤ m - p := Nat.min_le_right _ _
  have hm1 : m ≤ s.length := Nat.min_le_left _ _
  have hm2 : m ≤ t.length := Nat.min_le_right _ _
  have hpm : p ≤ m := Nat.le_min.mpr ⟨hp1, hp2⟩
  have hpq_s : p + q ≤ s.length := by omega
  have hpq_t : p + q ≤ t.length := by omega
  have h1 : s.take p = t.take p := take_lcp_eq s t p (le_of_eq hpdef)
  have h2 : s.drop (s.length - q) = t.drop (t.length - q) := by
    have e1 : List.take q s.reverse = List.take q t.reverse :=
      take_lcp_eq s.reverse t.reverse q hq1
    rw [List.take_reverse, List.take_reverse] at e1
    exact List.reverse_injective e1
  rw [h1, h2]
  have hple : p ≤ t.length - q := by omega
  have h3 : (t.take (t.length - q)).take p = t.take p := by
    rw [List.take_take]
    rw [Nat.min_eq_left hple]
  rw [← h3, List.take_append_drop, List.take_append_drop]

lemma applyScript_computeScript (rev : Bool) (s t : List Char) :
    applyScript (computeScript rev s t) s = t := by
  cases rev
  · show applyScript (computeFwd s t) s = t
    have hrev : (computeFwd s t).isRev = false := rfl
    unfold applyScript
    rw [hrev]
    simp only [Bool.false_eq_true, if_false]
    exact applyFwd_computeFwd s t
  · show applyScript { computeFwd s.reverse t.reverse with isRev := true } s = t
    unfold applyScript
    have hrev : ({ computeFwd s.reverse t.reverse with isRev := true } :
        EditScript).isRev = true := rfl
    rw [hrev]
    simp only [if_true]
    show (applyFwd (computeFwd s.reverse t.reverse) s.reverse).reverse = t
    rw [applyFwd_computeFwd]
    exact List.reverse_reverse t

/-- C3: applying the edit script computed from (s, t) back to s yields
exactly t, for both the Forward (rev = false) and the Reverse (rev = true)
codec variants. -/
theorem edit_script_round_trip (rev : Bool) (s t : String) :
    applyStr (computeStr rev s t) s = t := by
  show String.mk (applyScript (computeScript rev s.data t.data) s.data) = t
  rw [applyScript_computeScript]

/-! ### The two assemblers -/

lemma transform_ok_length (enc : List String) :
    ∀ xs ys, transform enc xs = Res.ok ys → ys.length = xs.length := by
  intro xs
  induction xs with
  | nil =>
    intro ys h
    simp only [transform, Res.ok.injEq] at h
    rw [← h]
    rfl
  | cons s rest ih =>
    intro ys h
    simp only [transform] at h
    cases he : encode enc s with
    | err e => simp [he] at h
    | ok c =>
      cases ht : transform enc rest with
      | err e => simp [he, ht] at h
      | ok cs =>
        simp only [he, ht, Res.ok.injEq] at h
        rw [← h]
        simp [ih cs ht]

lemma getData_eq_iterYields (rev : Bool) (u f l : List String) :
    ∀ c data, getData rev u f l c = Res.ok data → iterYields rev u f l c = data := by
  intro c
  induction c with
  | nil =>
    intro data h
    simp only [getData, Res.ok.injEq] at h
    rw [← h]
    rfl
  | cons s rest ih =>
    intro data h
    simp only [getData] at h
    cases he : encodeSentence rev u f l s with
    | err e => simp [he] at h
    | ok r =>
      cases hd : getData rev u f l rest with
      | err e => simp [he, hd] at h
      | ok rs =>
        simp only [he, hd, Res.ok.injEq] at h
        rw [← h]
        simp only [iterYields, he]
        rw [ih rs hd]

/-- C9: every record produced by the per-sentence encoding step shared by
both assemblers (_get_data and ConlluIterDataset.__iter__) carries three
code sequences whose lengths all equal the token count of the sentence. -/
theorem sentence_record_lengths (rev : Bool) (u f l : List String) (s : Sent)
    (r : Record) (h : encodeSentence rev u f l s = Res.ok r) :
    r.uposCodes.length = s.tokens.length ∧
    r.lemmaCodes.length = s.tokens.length ∧
    r.featsCodes.length = s.tokens.length := by
  dsimp only [encodeSentence] at h
  cases h1 : transform u (s.tokens.map (fun t => t.upos)) with
  | err e => simp [h1] at h
  | ok uc =>
    cases h2 : transform l (s.tokens.map (fun t => lemmaRuleStr rev t.form t.lemma_)) with
    | err e => simp [h1, h2] at h
    | ok lc =>
      cases h3 : transform f (s.tokens.map (fun t => t.feats)) with
      | err e => simp [h1, h2, h3] at h
      | ok fc =>
        simp only [h1, h2, h3, Res.ok.injEq] at h
        rw [← h]
        refine ⟨?_, ?_, ?_⟩
        · rw [transform_ok_length u _ uc h1, List.length_map]
        · rw [transform_ok_length l _ lc h2, List.length_map]
        · rw [transform_ok_length f _ fc h3, List.length_map]

/-- C9 witness: the demonstration sentence has one token, and its record has
three code sequences of length one. -/
theorem sentence_record_lengths_witness :
    encodeSentence false demoU demoF demoL demoSent = Res.ok demoRecord ∧
    (demoRecord.uposCodes.length = demoSent.tokens.length ∧
     demoRecord.lemmaCodes.length = demoSent.tokens.length ∧
     demoRecord.featsCodes.length = demoSent.tokens.length) :=
  ⟨by decide,
   sentence_record_lengths false demoU demoF demoL demoSent demoRecord (by decide)⟩

/-- C4: for a fixed corpus and namespace, a successfully constructed
materializing dataset persists its three fitted encoders; a streaming
dataset constructed on the resulting store loads exactly those encoders, and
its yielded record stream agrees with the buffered data_set at every index. -/
theorem assembler_parity (corpus : List Sent) (rev : Bool) (ns : String)
    (st : Store) (ms : MapState) (st2 : Store)
    (hinit : mapInit (some corpus) rev ns st = Res.ok (ms, st2)) :
    iterInit st2 ns = Res.ok ⟨ms.encoders⟩ ∧
    ∀ u f l, ms.encoders = some (u, f, l) →
      ∀ i : Nat, ms.dataSet.get? i = (iterYields rev u f l corpus).get? i := by
  simp only [mapInit] at hinit
  cases hd : getData rev (fitEncoder UPOS_CLASSES)
      (fitEncoder (getAllClassesFeats corpus))
      (fitEncoder (getAllClassesLemma rev corpus)) corpus with
  | err e => rw [hd] at hinit; cases hinit
  | ok data =>
    rw [hd] at hinit
    have hms : ms = ⟨data, some (fitEncoder UPOS_CLASSES,
        fitEncoder (getAllClassesFeats corpus),
        fitEncoder (getAllClassesLemma rev corpus))⟩ ∧
        st2 = saveEncoders st ns (fitEncoder UPOS_CLASSES)
          (fitEncoder (getAllClassesFeats corpus))
          (fitEncoder (getAllClassesLemma rev corpus)) := by
      have := hinit
      simp only [Res.ok.injEq, Prod.mk.injEq] at this
      exact ⟨this.1.symm, this.2.symm⟩
    obtain ⟨hms1, hms2⟩ := hms
    subst hms1
    subst hms2
    constructor
    · have hmem : ns ∈ (saveEncoders st ns (fitEncoder UPOS_CLASSES)
          (fitEncoder (getAllClassesFeats corpus))
          (fitEncoder (getAllClassesLemma rev corpus))).dirs := by
        simp only [saveEncoders]
        by_cases hcase : ns ∈ st.dirs
        · simp [hcase]
        · simp [hcase]
      have hA : (("upos_encoder" : String) == "ufeats_encoder") = false := by decide
      have hB : (("upos_encoder" : String) == "lemma_encoder") = false := by decide
      have hC : (("ufeats_encoder" : String) == "lemma_encoder") = false := by decide
      have e1 : storeLookup (saveEncoders st ns (fitEncoder UPOS_CLASSES)
          (fitEncoder (getAllClassesFeats corpus))
          (fitEncoder (getAllClassesLemma rev corpus))) ns "upos_encoder" =
          some (fitEncoder UPOS_CLASSES) := by
        simp [storeLookup, saveEncoders, List.find?]
      have e2 : storeLookup (saveEncoders st ns (fitEncoder UPOS_CLASSES)
          (fitEncoder (getAllClassesFeats corpus))
          (fitEncoder (getAllClassesLemma rev corpus))) ns "ufeats_encoder" =
          some (fitEncoder (getAllClassesFeats corpus)) := by
        simp [storeLookup, saveEncoders, List.find?, hA]
      have e3 : storeLookup (saveEncoders st ns (fitEncoder UPOS_CLASSES)
          (fitEncoder (getAllClassesFeats corpus))
          (fitEncoder (getAllClassesLemma rev corpus))) ns "lemma_encoder" =
          some (fitEncoder (getAllClassesLemma rev corpus)) := by
        simp [storeLookup, saveEncoders, List.find?, hB, hC]
      simp only [iterInit, if_pos hmem, e1, e2, e3]
    · intro u f l hencs i
      simp only [Option.some.injEq, Prod.mk.injEq] at hencs
      obtain ⟨hu, hf, hl⟩ := hencs
      subst hu
      subst hf
      subst hl
      rw [getData_eq_iterYields rev _ _ _ corpus data hd]

/-- C4 witness: on the demonstration corpus the materializing construction
succeeds, the streaming construction on the resulting store loads the same
encoders, and the two record streams agree at index 0. -/
theorem assembler_parity_witness :
    iterInit demoStore "UDTube" = Res.ok ⟨demoMapState.encoders⟩ ∧
    demoMapState.dataSet.get? 0 =
      (iterYields false demoU demoF demoL [demoSent]).get? 0 :=
  ⟨(assembler_parity [demoSent] false "UDTube" emptyStore demoMapState demoStore
      (by decide)).1,
   (assembler_parity [demoSent] false "UDTube" emptyStore demoMapState demoStore
      (by decide)).2 demoU demoF demoL rfl 0⟩

/-! ### Streaming-assembler construction and random access -/

/-- C5 counterexample: constructing the streaming dataset over a store in
which nothing was ever persisted (so the namespace directory does not exist)
succeeds with no encoders loaded, instead of failing with NotFoundError. -/
theorem iter_init_missing_namespace_succeeds :
    iterInit emptyStore "UDTube" = Res.ok ⟨none⟩ ∧
    iterInit emptyStore "UDTube" ≠ Res.err "NotFoundError" := by decide

/-- C5 (amended): when the namespace directory does not exist, construction
of the streaming dataset succeeds silently with no vocabularies loaded (the
failure surfaces only later, when encoding); construction fails with
NotFoundError exactly when the namespace directory exists but at least one
of the three vocabulary blobs is missing from it. -/
theorem iterInit_spec (st : Store) (ns : String) :
    (ns ∉ st.dirs → iterInit st ns = Res.ok ⟨none⟩) ∧
    (ns ∈ st.dirs →
      (iterInit st ns = Res.err "NotFoundError" ↔
        (storeLookup st ns "upos_encoder" = none ∨
         storeLookup st ns "ufeats_encoder" = none ∨
         storeLookup st ns "lemma_encoder" = none))) := by
  constructor
  · intro h
    simp [iterInit, h]
  · intro h
    simp only [iterInit, if_pos h]
    cases h1 : storeLookup st ns "upos_encoder" <;>
      cases h2 : storeLookup st ns "ufeats_encoder" <;>
        cases h3 : storeLookup st ns "lemma_encoder" <;> simp

/-- C5 witness: on a store whose namespace directory exists but holds no
blobs, construction fails with NotFoundError, as the amended claim states. -/
theorem iterInit_spec_witness :
    iterInit storeNS "NS" = Res.err "NotFoundError" :=
  ((iterInit_spec storeNS "NS").2 (by decide)).mpr (by decide)

lemma pyGet_ok {α : Type} (l : List α) (j : Int) (a : α) (h0 : 0 ≤ j)
    (hg : l.get? j.toNat = some a) : pyGet l j = Res.ok a := by
  have hlt : j.toNat < l.length := by
    cases hn : Nat.decLt j.toNat l.length with
    | isTrue h => exact h
    | isFalse h =>
      have := List.get?_eq_none.mpr (Nat.le_of_not_lt h)
      rw [this] at hg
      cases hg
  have hcond : 0 ≤ j ∧ j < (l.length : Int) := ⟨h0, by omega⟩
  simp only [pyGet, if_pos hcond, hg]

lemma pyGet_err_iff {α : Type} (l : List α) (j : Int) :
    pyGet l j = Res.err "IndexError" ↔ (j < 0 ∨ (l.length : Int) ≤ j) := by
  constructor
  · intro h
    by_contra hc
    push_neg at hc
    obtain ⟨h1, h2⟩ := hc
    have h0 : 0 ≤ j := h1
    have hlt : j.toNat < l.length := by omega
    obtain ⟨a, ha⟩ : ∃ a, l.get? j.toNat = some a := by
      cases hg : l.get? j.toNat with
      | none =>
        have := List.get?_eq_none.mp hg
        omega
      | some a => exact ⟨a, rfl⟩
    rw [pyGet_ok l j a h0 ha] at h
    cases h
  · intro h
    have hcond : ¬(0 ≤ j ∧ j < (l.length : Int)) := by omega
    simp only [pyGet, if_neg hcond]

/-- C7 counterexample: on a one-record data set, random access with the
index -1 (outside [0, 1)) does not fail with IndexError; it returns the
buffered record (Python negative indexing counts from the end). -/
theorem getitem_negative_index_ok :
    pyGetItem [demoRecord] (-1) = Res.ok demoRecord ∧
    pyGetItem [demoRecord] (-1) ≠ Res.err "IndexError" := by decide

/-- C7 (amended): random access on the buffered data set fails with
IndexError exactly for indices at or beyond the length and for indices below
minus the length; a non-negative in-range index returns the buffered record
at that position, and a negative index not below minus the length returns
the record at length + index. -/
theorem pyGetItem_spec {α : Type} (l : List α) (i : Int) :
    (pyGetItem l i = Res.err "IndexError" ↔
      ((l.length : Int) ≤ i ∨ i < -(l.length : Int))) ∧
    (∀ a : α, 0 ≤ i → l.get? i.toNat = some a → pyGetItem l i = Res.ok a) ∧
    (∀ a : α, i < 0 → 0 ≤ i + (l.length : Int) →
      l.get? (i + (l.length : Int)).toNat = some a → pyGetItem l i = Res.ok a) := by
  refine ⟨?_, ?_, ?_⟩
  · by_cases hi : i < 0
    · simp only [pyGetItem, if_pos hi, pyGet_err_iff]
      omega
    · simp only [pyGetItem, if_neg hi, pyGet_err_iff]
      omega
  · intro a h0 hg
    have hi : ¬ i < 0 := by omega
    simp only [pyGetItem, if_neg hi]
    exact pyGet_ok l i a h0 hg
  · intro a hi h0 hg
    simp only [pyGetItem, if_pos hi]
    exact pyGet_ok l (i + (l.length : Int)) a h0 hg

/-- C7 witness: index 0 on a one-record data set is in range and returns the
buffered record. -/
theorem pyGetItem_spec_witness :
    pyGetItem [demoToken] 0 = Res.ok demoToken :=
  (pyGetItem_spec [demoToken] 0).2.1 demoToken (by decide) (by decide)

/-- C10: constructing the materializing dataset with a falsy corpus-file
argument succeeds in prediction mode: the buffered data_set is empty (so the
length is 0), no label encoders are fitted, and the store is unchanged. -/
theorem mapInit_empty_corpus (rev : Bool) (ns : String) (st : Store) :
    mapInit none rev ns st = Res.ok (⟨[], none⟩, st) ∧
    (⟨[], none⟩ : MapState).dataSet.length = 0 :=
  ⟨rfl, rfl⟩
